import Mathlib

/-!
Shallow embedding of the Apophenia data-generation and round-progression
engine (src/utils/dataGenerator.ts and src/App.tsx).

Modelling conventions:
* JavaScript numbers are modelled by `JSNum` (a finite rational, NaN, or a
  signed infinity) where non-finite values can flow (datasets produced by the
  user generator), and by plain rationals where the code only manipulates
  ordinary arithmetic (noise levels, random draws).
* `Math.random` is modelled by an explicit stream of rationals (`RNG`);
  theorems that depend on `Math.random() ∈ [0,1)` carry that as a hypothesis
  on the stream.
* Dynamically evaluated user procedure text (`new Function(...)`) cannot be
  executed inside the embedding; each evaluation site takes an oracle
  describing the observable outcome of running the user code: `none` models
  a thrown exception (including parse errors and a missing callable), and
  `some v` models a normal completion with JavaScript value `v`.  The oracle
  is a function of the arguments the source passes to the compiled function.
-/

namespace Apophenia

/-- A JavaScript number: a finite rational, NaN, or a signed infinity. -/
inductive JSNum where
  | finite : ℚ → JSNum
  | nan : JSNum
  | posInf : JSNum
  | negInf : JSNum
deriving DecidableEq, Repr

/-- Whether a JavaScript number is finite. -/
def JSNum.isFinite : JSNum → Bool
  | .finite _ => true
  | _ => false

/-- A JavaScript runtime value, as far as the runner's validation inspects it. -/
inductive JSValue where
  | num : JSNum → JSValue
  | str : String → JSValue
  | boolean : Bool → JSValue
  | nullV : JSValue
  | undef : JSValue
  | arr : List JSValue → JSValue
  | obj : List (String × JSValue) → JSValue

/-- DataPoint from types.ts: an x/y pair of JavaScript numbers. -/
structure DataPoint where
  x : JSNum
  y : JSNum
deriving DecidableEq, Repr

/-- Dataset from types.ts. -/
abbrev Dataset := List DataPoint

/-- PlotData from types.ts: a dataset with its 1-based slot index and truth tag. -/
structure PlotData where
  data : Dataset
  index : ℕ
  isTrue : Bool
deriving DecidableEq, Repr

/-- Method from types.ts; only the function-based generator exists. -/
inductive Method where
  | function : Method
deriving DecidableEq

/-- FunctionConfig from types.ts. -/
structure FuncConfig where
  code : String
  noiseStepCode : Option String
  initialNoiseLevel : Option ℚ

/-- GameConfig from types.ts. -/
structure GameConfig where
  method : Method
  n : ℕ
  r : ℕ
  funcConfig : Option FuncConfig

/-- The stream of values produced by successive Math.random() calls. -/
structure RNG where
  stream : ℕ → ℚ
  idx : ℕ

/-- One Math.random() call: read the current stream position and advance. -/
def RNG.next (g : RNG) : ℚ × RNG :=
  (g.stream g.idx, { g with idx := g.idx + 1 })

/-- The stream only produces values in [0,1), as Math.random does. -/
def RNG.InRange (g : RNG) : Prop :=
  ∀ k, 0 ≤ g.stream k ∧ g.stream k < 1

/-- The simultaneous assignment swap of shuffleArray's loop body:
swap positions i and j when both exist, else leave the list unchanged. -/
def listSwap (l : List α) (i j : ℕ) : List α :=
  match l[i]?, l[j]? with
  | some a, some b => (l.set i b).set j a
  | _, _ => l

/-- Loop of shuffleArray (dataGenerator.ts lines 269-274): the argument is the
current value of the loop counter i; each iteration draws j uniformly from
[0, i] via Math.floor(Math.random() * (i + 1)) and swaps positions i and j. -/
def shuffleLoop (arr : List α) (g : RNG) : ℕ → List α × RNG
  | 0 => (arr, g)
  | i + 1 =>
    let (r, g') := g.next
    let j := (Int.floor (r * ((i : ℚ) + 2))).toNat
    shuffleLoop (listSwap arr (i + 1) j) g' i

/-- shuffleArray from dataGenerator.ts: Fisher-Yates, iterating i from
length - 1 down to 1. -/
def shuffleArray (arr : List α) (g : RNG) : List α × RNG :=
  shuffleLoop arr g (arr.length - 1)

/-- permuteData from dataGenerator.ts lines 248-261: keep the x values in
place, shuffle the y values, and recombine index-for-index. -/
def permuteData (data : Dataset) (g : RNG) : Dataset × RNG :=
  (List.zipWith (fun p y => DataPoint.mk p.x y) data
     (shuffleArray (data.map (·.y)) g).1,
   (shuffleArray (data.map (·.y)) g).2)

/-- JavaScript property access on an object's field list. -/
def getField (fs : List (String × JSValue)) (k : String) : Option JSValue :=
  (fs.find? (fun p => p.1 = k)).map (·.2)

/-- The fields visible to the validation loop: a plain object carries its
fields; an array is also typeof object and non-null but has no x/y fields;
every other value (including null) fails the object test of line 219. -/
def itemFields : JSValue → Option (List (String × JSValue))
  | .obj fs => some fs
  | .arr _ => some []
  | _ => none

/-- The test of line 219: typeof item is object and item is not null. -/
def isObjectLike (v : JSValue) : Bool :=
  (itemFields v).isSome

/-- Reading item.k followed by the typeof-number test of line 223: yields the
number when the property exists and holds one, none otherwise. -/
def propNum (v : JSValue) (k : String) : Option JSNum :=
  match itemFields v with
  | none => none
  | some fs =>
    match getField fs k with
    | some (.num n) => some n
    | _ => none

/-- The error message thrown for a bad item at the given index
(dataGenerator.ts lines 220 and 224). -/
def checkErrMsg (v : JSValue) (i : ℕ) : String :=
  if isObjectLike v then
    "Item at index " ++ toString i ++ " is missing x or y coordinates"
  else
    "Item at index " ++ toString i ++ " is not an object"

/-- Validation of one result item (dataGenerator.ts lines 218-227): it must be
a non-null object whose x and y properties are typeof number. -/
def checkItem (v : JSValue) (i : ℕ) : Except String DataPoint :=
  if isObjectLike v then
    match propNum v "x", propNum v "y" with
    | some nx, some ny => .ok (DataPoint.mk nx ny)
    | _, _ => .error (checkErrMsg v i)
  else
    .error (checkErrMsg v i)

/-- Whether one item passes validation (decision of checkItem). -/
def itemOk (v : JSValue) : Bool :=
  isObjectLike v && (propNum v "x").isSome && (propNum v "y").isSome

/-- The result.map validation loop: JavaScript map runs left to right and the
first throwing item aborts the whole map. -/
def validateItems (i : ℕ) : List JSValue → Except String Dataset
  | [] => .ok []
  | v :: rest =>
    match checkItem v i with
    | .error e => .error e
    | .ok p =>
      match validateItems (i + 1) rest with
      | .error e => .error e
      | .ok ps => .ok (p :: ps)

/-- The fallback dataset of lines 232-235: count points, each drawing
Math.random() for x then for y, scaled by 10. -/
def fallbackData (g : RNG) : ℕ → Dataset × RNG
  | 0 => ([], g)
  | k + 1 =>
    let (rx, g1) := g.next
    let (ry, g2) := g1.next
    let (rest, g3) := fallbackData g2 k
    (DataPoint.mk (.finite (rx * 10)) (.finite (ry * 10)) :: rest, g3)

/-- The outcome of compiling and invoking the user generator code: `none`
models any throw (parse error, no callable found, exception during the run),
`some v` a normal return of JavaScript value `v`.  It is a function of the
code text and the two arguments the source passes to the compiled function. -/
abbrev ExecOracle := String → ℕ → ℚ → Option JSValue

/-- generateFromFunction from dataGenerator.ts lines 166-237, applied to the
outcome of running the user code: a non-array result or a failing item throws
inside the try block, and every throw is caught and replaced by the fallback
dataset of `count` random points. -/
def generateFromFunction (outcome : Option JSValue) (count : ℕ) (g : RNG) :
    Dataset × RNG :=
  match outcome with
  | none => fallbackData g count
  | some v =>
    match v with
    | .arr items =>
      match validateItems 0 items with
      | .ok ds => (ds, g)
      | .error _ => fallbackData g count
    | _ => fallbackData g count

/-- generateDataset from dataGenerator.ts lines 26-32: the only rejected
configurations are those failing the method/funcConfig guard of line 27. -/
def generateDataset (config : GameConfig) (exec : ExecOracle) (noiseLevel : ℚ)
    (g : RNG) : Except String (Dataset × RNG) :=
  if config.method = Method.function then
    match config.funcConfig with
    | some fc => .ok (generateFromFunction (exec fc.code config.r noiseLevel) config.r g)
    | none => .error "Invalid configuration"
  else
    .error "Invalid configuration"

/-- Array.isArray of the returned value (line 213). -/
def isArr : JSValue → Bool
  | .arr _ => true
  | _ => false

/-- A concrete Math.random stream for witnesses. -/
def rngHalf : RNG := ⟨fun _ => 1/2, 0⟩

/-- A dataset is a y-permutation of another: the x sequence is identical
element-for-element and the multiset of y values is the same. -/
abbrev isYPermutationOf (e d : Dataset) : Prop :=
  e.map (·.x) = d.map (·.x) ∧
  (e.map (·.y) : Multiset JSNum) = (d.map (·.y) : Multiset JSNum)

/-- The loop of generateLineupData lines 50-67 over the list of 1-based
positions: the slot at the true position gets the true dataset, every other
slot an independent permutation of it, threading the random stream through in
loop order. -/
def buildSlots (trueData : Dataset) (truePos : ℤ) (g : RNG) :
    List ℕ → List PlotData × RNG
  | [] => ([], g)
  | i :: rest =>
    if (i : ℤ) = truePos then
      (PlotData.mk trueData i true :: (buildSlots trueData truePos g rest).1,
       (buildSlots trueData truePos g rest).2)
    else
      (PlotData.mk (permuteData trueData g).1 i false ::
         (buildSlots trueData truePos (permuteData trueData g).2 rest).1,
       (buildSlots trueData truePos (permuteData trueData g).2 rest).2)

/-- generateLineupData from dataGenerator.ts lines 43-70. -/
def generateLineupData (config : GameConfig) (exec : ExecOracle) (truePos : ℤ)
    (noiseLevel : ℚ) (g : RNG) : Except String (List PlotData × RNG) :=
  match generateDataset config exec noiseLevel g with
  | .error e => .error e
  | .ok td => .ok (buildSlots td.1 truePos td.2 (List.range' 1 config.n))

/-- A concrete generator configuration for witnesses. -/
def fcW : FuncConfig := ⟨"gen", none, none⟩

/-- A three-plot witness config. -/
def cfgW : GameConfig := ⟨.function, 3, 2, some fcW⟩

/-- A two-plot witness config. -/
def cfgW2 : GameConfig := ⟨.function, 2, 2, some fcW⟩

/-- A witness oracle whose user code returns a fixed valid two-point array. -/
def execW : ExecOracle := fun _ _ _ =>
  some (.arr [.obj [("x", .num (.finite 1)), ("y", .num (.finite 10))],
              .obj [("x", .num (.finite 2)), ("y", .num (.finite 20))]])

/-- JavaScript || with a numeric default: an absent value and 0 are falsy. -/
def jsOrDefault (v : Option ℚ) (d : ℚ) : ℚ :=
  match v with
  | some x => if x = 0 then d else x
  | none => d

/-- Line 81 of dataGenerator.ts: config.funcConfig?.initialNoiseLevel || 0.5. -/
def rorschachNoise (config : GameConfig) : ℚ :=
  jsOrDefault (config.funcConfig.bind (·.initialNoiseLevel)) (1 / 2)

/-- The null-plot loop of lines 96-102, over the list of 1-based positions. -/
def rorschachNulls (trueData : Dataset) (g : RNG) : List ℕ → List PlotData × RNG
  | [] => ([], g)
  | i :: rest =>
    (PlotData.mk (permuteData trueData g).1 i false ::
       (rorschachNulls trueData (permuteData trueData g).2 rest).1,
     (rorschachNulls trueData (permuteData trueData g).2 rest).2)

/-- Array.prototype.splice(pos, 0, a) for a nonnegative pos, which clamps pos
to the array length (take/drop do the same clamping). -/
def spliceInsert (l : List α) (pos : ℕ) (a : α) : List α :=
  l.take pos ++ a :: l.drop pos

/-- The forEach reindexing of lines 116-118: the slot at offset idx gets
index idx + 1. -/
def reindex (k : ℕ) : List PlotData → List PlotData
  | [] => []
  | s :: rest => PlotData.mk s.data (k + 1) s.isTrue :: reindex (k + 1) rest

/-- Lines 105-118 given the built null plots: draw the uniform insertion
position truePos in [1, n+1] from the next Math.random() value, splice the
true plot in at offset truePos - 1 and reindex every slot to 1..N. -/
def rorschachShow (td : Dataset) (nulls : List PlotData × RNG) :
    List PlotData × RNG :=
  (reindex 0 (spliceInsert nulls.1
      ((Int.floor (nulls.2.next.1 * ((nulls.1.length : ℚ) + 1))).toNat + 1 - 1)
      (PlotData.mk td
        ((Int.floor (nulls.2.next.1 * ((nulls.1.length : ℚ) + 1))).toNat + 1) true)),
   nulls.2.next.2)

/-- The body of generateRorschachData once the line-81 noise level is given
(dataGenerator.ts lines 82-123): generate the true dataset, draw the Bernoulli
showTrue outcome from the next Math.random() value, build n or n-1 null plots,
and when showTrue holds insert the true plot at a uniform position and
reindex. -/
def generateRorschachWith (config : GameConfig) (exec : ExecOracle) (p : ℚ)
    (noise : ℚ) (g : RNG) : Except String (List PlotData × RNG) :=
  match generateDataset config exec noise g with
  | .error e => .error e
  | .ok td =>
    if td.2.next.1 < p then
      .ok (rorschachShow td.1
            (rorschachNulls td.1 td.2.next.2 (List.range' 1 (config.n - 1))))
    else
      .ok (rorschachNulls td.1 td.2.next.2 (List.range' 1 config.n))

/-- generateRorschachData from dataGenerator.ts lines 80-124. -/
def generateRorschachData (config : GameConfig) (exec : ExecOracle) (p : ℚ)
    (g : RNG) : Except String (List PlotData × RNG) :=
  generateRorschachWith config exec p (rorschachNoise config) g

/-- An all-zero Math.random stream. -/
def rngZero : RNG := ⟨fun _ => 0, 0⟩

/-- The all-zero stream lies inside [0,1). -/
def rngZeroInRange : ∀ (k : ℕ), (0 : ℚ) ≤ 0 ∧ (0 : ℚ) < 1 :=
  fun _ => ⟨le_refl 0, zero_lt_one⟩

/-- A generator FunctionConfig with an explicitly configured initial noise
level of 0. -/
def fcC9 : FuncConfig := ⟨"gen", none, some 0⟩

/-- A one-plot config carrying fcC9. -/
def cfgC9 : GameConfig := ⟨.function, 1, 1, some fcC9⟩

/-- An oracle whose user code output reveals the noise level it was called
with: one point (1,1) at noise 0 and one point (2,2) at any other noise. -/
def execC9 : ExecOracle := fun _ _ noiseLevel =>
  if noiseLevel = 0 then
    some (.arr [.obj [("x", .num (.finite 1)), ("y", .num (.finite 1))]])
  else
    some (.arr [.obj [("x", .num (.finite 2)), ("y", .num (.finite 2))]])

/-- An oracle whose user code returns an empty array. -/
def execEmpty : ExecOracle := fun _ _ _ => some (.arr [])

/-- A config violating both invariants of the claim: a single plot
(plotCount < 2) and zero points per plot. -/
def cfgTiny : GameConfig := ⟨.function, 1, 0, some fcW⟩

/-- A config whose funcConfig is absent. -/
def cfgNoFunc : GameConfig := ⟨.function, 3, 5, none⟩

/-- A result item whose x field is the non-finite number NaN. -/
def nanItem : JSValue := .obj [("x", .num .nan), ("y", .num (.finite 0))]

/-- The outcome of compiling and invoking the user noiseStepCode through
new Function: none models a throw anywhere in compilation or execution, some
v a normal numeric return.  It is a function of the code text and the
currentLevel argument. -/
abbrev ProgOracle := String → ℚ → Option ℚ

/-- updateNoiseLevel from dataGenerator.ts lines 134-154: a present, nonempty
noiseStepCode (the empty string is falsy in the line-135 guard) is executed,
with any throw caught and replaced by currentLevel * 1.1; otherwise the
default currentLevel + 0.1 applies. -/
def updateNoiseLevel (config : GameConfig) (prog : ProgOracle)
    (currentLevel : ℚ) : ℚ :=
  if config.method = Method.function then
    match config.funcConfig with
    | some fc =>
      match fc.noiseStepCode with
      | some code =>
        if code = "" then currentLevel + 1 / 10
        else
          match prog code currentLevel with
          | some v => v
          | none => currentLevel * (11 / 10)
      | none => currentLevel + 1 / 10
    | none => currentLevel + 1 / 10
  else
    currentLevel + 1 / 10

/-- A FunctionConfig carrying a (broken) progression procedure. -/
def fcBroken : FuncConfig := ⟨"gen", some "steps", none⟩

/-- A config carrying fcBroken. -/
def cfgBroken : GameConfig := ⟨.function, 2, 1, some fcBroken⟩

/-- A progression oracle whose user code always throws. -/
def progThrow : ProgOracle := fun _ _ => none

/-- The stage field of GameState in types.ts. -/
inductive Stage where
  | setup
  | protocolSelection
  | rorschach
  | lineup
  | results
deriving DecidableEq, Repr

/-- Protocol from types.ts. -/
inductive Protocol where
  | rorschach
  | lineup
deriving DecidableEq, Repr

/-- GameState from types.ts. -/
structure GameState where
  stage : Stage
  config : Option GameConfig
  protocol : Option Protocol
  score : ℕ
  roundsPlayed : ℕ
  currentNoiseLevel : ℚ
  currentTruePos : Option ℤ

/-- handleSelection from App.tsx lines 50-76.  A correct selection (equal to
the non-null currentTruePos) increments score and roundsPlayed, advances the
noise level through updateNoiseLevel, and draws a fresh true position
Math.floor(Math.random() * n) + 1; the stage is not changed.  An incorrect
selection moves to the results stage, incrementing only roundsPlayed and
consuming no randomness.  The correct branch dereferences gameState.config!,
so a null config there throws, modelled as the none result. -/
def handleSelection (prog : ProgOracle) (gs : GameState) (g : RNG)
    (selectedPos : ℤ) : Option (GameState × RNG) :=
  if gs.currentTruePos = some selectedPos then
    match gs.config with
    | none => none
    | some c =>
      some ({ gs with
                score := gs.score + 1,
                roundsPlayed := gs.roundsPlayed + 1,
                currentNoiseLevel := updateNoiseLevel c prog gs.currentNoiseLevel,
                currentTruePos := some (Int.floor (g.next.1 * (c.n : ℚ)) + 1) },
            g.next.2)
  else
    some ({ gs with stage := Stage.results, roundsPlayed := gs.roundsPlayed + 1 }, g)

/-- A k-plus-one-round play: answer correctly k times (selecting the current
true position), then answer incorrectly once (selecting truePos + 1). -/
def playRounds (prog : ProgOracle) (gs : GameState) (g : RNG) :
    ℕ → Option (GameState × RNG)
  | 0 => handleSelection prog gs g (gs.currentTruePos.getD 0 + 1)
  | k + 1 =>
    match handleSelection prog gs g (gs.currentTruePos.getD 0) with
    | none => none
    | some st => playRounds prog st.1 st.2 k

/-- A concrete mid-lineup game state for the C5 witness. -/
def gsW : GameState :=
  ⟨Stage.lineup, some cfgW2, some Protocol.lineup, 0, 0, 1 / 2, some 1⟩

theorem cons_set_perm {α : Type _} :
    ∀ (xs : List α) (k : ℕ) (b x : α), xs[k]? = some b →
      List.Perm (b :: xs.set k x) (x :: xs) := by
  intro xs
  induction xs with
  | nil => intro k b x h; simp at h
  | cons c cs ih =>
    intro k b x h
    cases k with
    | zero =>
      rw [List.getElem?_cons_zero] at h
      injection h with h
      subst h
      simpa using List.Perm.swap x c cs
    | succ m =>
      rw [List.getElem?_cons_succ] at h
      have h1 : List.Perm (b :: c :: cs.set m x) (c :: b :: cs.set m x) :=
        List.Perm.swap c b _
      have h2 : List.Perm (c :: b :: cs.set m x) (c :: x :: cs) :=
        List.Perm.cons c (ih m b x h)
      have h3 : List.Perm (c :: x :: cs) (x :: c :: cs) := List.Perm.swap x c cs
      exact (h1.trans h2).trans h3

theorem listSwap_perm {α : Type _} :
    ∀ (l : List α) (i j : ℕ), List.Perm (listSwap l i j) l := by
  intro l
  induction l with
  | nil => intro i j; cases i <;> cases j <;> simp [listSwap]
  | cons x xs ih =>
    intro i j
    cases i with
    | zero =>
      cases j with
      | zero => simp [listSwap]
      | succ k =>
        unfold listSwap
        cases hk : xs[k]? with
        | none => simp [hk]
        | some b =>
          simp only [List.getElem?_cons_zero, List.getElem?_cons_succ, hk, List.set]
          exact cons_set_perm xs k b x hk
    | succ m =>
      cases j with
      | zero =>
        unfold listSwap
        cases hm : xs[m]? with
        | none => simp [hm]
        | some a =>
          simp only [List.getElem?_cons_zero, List.getElem?_cons_succ, hm, List.set]
          exact cons_set_perm xs m a x hm
      | succ k =>
        unfold listSwap
        cases hm : xs[m]? with
        | none => simp [hm]
        | some a =>
          cases hk : xs[k]? with
          | none => simp [hm, hk]
          | some b =>
            simp only [List.getElem?_cons_succ, hm, hk, List.set]
            refine List.Perm.cons x ?_
            have h := ih m k
            unfold listSwap at h
            rwa [hm, hk] at h

theorem shuffleLoop_perm {α : Type _} :
    ∀ (fuel : ℕ) (arr : List α) (g : RNG),
      List.Perm (shuffleLoop arr g fuel).1 arr := by
  intro fuel
  induction fuel with
  | zero => intro arr g; simp [shuffleLoop]
  | succ i ih =>
    intro arr g
    simp only [shuffleLoop]
    exact (ih _ _).trans (listSwap_perm arr (i + 1) _)

theorem shuffleArray_perm {α : Type _} (arr : List α) (g : RNG) :
    List.Perm (shuffleArray arr g).1 arr :=
  shuffleLoop_perm (arr.length - 1) arr g

theorem shuffleArray_length {α : Type _} (arr : List α) (g : RNG) :
    (shuffleArray arr g).1.length = arr.length :=
  (shuffleArray_perm arr g).length_eq

theorem zipWith_mk_map_x :
    ∀ (d : Dataset) (ys : List JSNum), d.length = ys.length →
      (List.zipWith (fun p y => DataPoint.mk p.x y) d ys).map (·.x) = d.map (·.x) := by
  intro d
  induction d with
  | nil => intro ys _; simp
  | cons p ps ih =>
    intro ys h
    cases ys with
    | nil => simp at h
    | cons y yrest =>
      simp only [List.zipWith, List.map]
      rw [ih yrest (by simpa using h)]

theorem zipWith_mk_map_y :
    ∀ (d : Dataset) (ys : List JSNum), d.length = ys.length →
      (List.zipWith (fun p y => DataPoint.mk p.x y) d ys).map (·.y) = ys := by
  intro d
  induction d with
  | nil => intro ys h; cases ys with
    | nil => simp
    | cons y yrest => simp at h
  | cons p ps ih =>
    intro ys h
    cases ys with
    | nil => simp at h
    | cons y yrest =>
      simp only [List.zipWith, List.map]
      rw [ih yrest (by simpa using h)]

/-- C2: permuteData returns a dataset of the same length, with the x value at
each index unchanged (the whole x map is equal element-for-element), and with
the same multiset of y values; the input is not mutated (the embedding is a
pure function of its input, which it only reads). -/
theorem permuteData_marginals (d : Dataset) (g : RNG) :
    (permuteData d g).1.length = d.length ∧
    (permuteData d g).1.map (·.x) = d.map (·.x) ∧
    ((permuteData d g).1.map (·.y) : Multiset JSNum) = (d.map (·.y) : Multiset JSNum) := by
  have hlen : (shuffleArray (d.map (·.y)) g).1.length = (d.map (·.y)).length :=
    shuffleArray_length _ g
  have hdlen : d.length = (shuffleArray (d.map (·.y)) g).1.length := by
    rw [hlen, List.length_map]
  have hx := zipWith_mk_map_x d (shuffleArray (d.map (·.y)) g).1 hdlen
  have hy := zipWith_mk_map_y d (shuffleArray (d.map (·.y)) g).1 hdlen
  refine ⟨?_, ?_, ?_⟩
  · have := congrArg List.length hx
    simpa [permuteData] using this
  · simpa [permuteData] using hx
  · have hperm : List.Perm (shuffleArray (d.map (·.y)) g).1 (d.map (·.y)) :=
      shuffleArray_perm _ g
    simp only [permuteData]
    rw [hy]
    exact Multiset.coe_eq_coe.mpr hperm

theorem fallbackData_length (g : RNG) : ∀ count, (fallbackData g count).1.length = count := by
  intro count
  induction count generalizing g with
  | zero => simp [fallbackData]
  | succ k ih => simp [fallbackData, ih]

theorem fallbackData_finite (g : RNG) :
    ∀ count, ∀ p ∈ (fallbackData g count).1, p.x.isFinite = true ∧ p.y.isFinite = true := by
  intro count
  induction count generalizing g with
  | zero => simp [fallbackData]
  | succ k ih =>
    intro p hp
    simp only [fallbackData, List.mem_cons] at hp
    rcases hp with rfl | hp
    · exact ⟨rfl, rfl⟩
    · exact ih _ p hp

theorem checkItem_isOk (v : JSValue) (i : ℕ) : (checkItem v i).isOk = itemOk v := by
  unfold checkItem itemOk
  cases hobj : isObjectLike v with
  | false => simp [Except.isOk, Except.toBool]
  | true =>
    cases hx : propNum v "x" with
    | none => simp [hx, Except.isOk, Except.toBool]
    | some nx =>
      cases hy : propNum v "y" with
      | none => simp [hx, hy, Except.isOk, Except.toBool]
      | some ny => simp [hx, hy, Except.isOk, Except.toBool]

theorem validateItems_isOk :
    ∀ (items : List JSValue) (i : ℕ),
      (validateItems i items).isOk = items.all itemOk := by
  intro items
  induction items with
  | nil => intro i; rfl
  | cons v rest ih =>
    intro i
    simp only [validateItems, List.all_cons]
    cases hv : checkItem v i with
    | error e =>
      have hno : itemOk v = false := by rw [← checkItem_isOk v i, hv]; rfl
      simp [hno, Except.isOk, Except.toBool]
    | ok p =>
      have hyes : itemOk v = true := by rw [← checkItem_isOk v i, hv]; rfl
      rw [hyes, Bool.true_and]
      cases hrest : validateItems (i + 1) rest with
      | error e => rw [← ih (i + 1), hrest]
      | ok ps => rw [← ih (i + 1), hrest]; rfl

theorem validateItems_error_of_bad (items : List JSValue) (i : ℕ)
    (h : ∃ it ∈ items, itemOk it = false) :
    ∃ e, validateItems i items = .error e := by
  have hall : items.all itemOk = false := by
    rcases h with ⟨it, hmem, hbad⟩
    exact List.all_eq_false.mpr ⟨it, hmem, by simp [hbad]⟩
  have := validateItems_isOk items i
  rw [hall] at this
  cases hv : validateItems i items with
  | error e => exact ⟨e, rfl⟩
  | ok ds => rw [hv] at this; exact absurd this (by simp [Except.isOk, Except.toBool])

/-- C3: the runner never propagates an error.  Whenever the user code throws
(including parse errors and a missing callable, all modelled by outcome =
none), returns a non-array value, or returns an array containing an item that
is not an object or lacks numeric x/y fields, generateFromFunction returns the
fallback dataset of exactly count points, all with finite numeric x and y
fields.  The embedding is a total function, so no exception reaches the
caller on any input. -/
theorem generateFromFunction_fallback (outcome : Option JSValue) (count : ℕ) (g : RNG)
    (h : outcome = none ∨
         (∃ v, outcome = some v ∧ isArr v = false) ∨
         (∃ items, outcome = some (.arr items) ∧ ∃ it ∈ items, itemOk it = false)) :
    generateFromFunction outcome count g = fallbackData g count ∧
    (generateFromFunction outcome count g).1.length = count ∧
    ∀ p ∈ (generateFromFunction outcome count g).1,
      p.x.isFinite = true ∧ p.y.isFinite = true := by
  have hfb : generateFromFunction outcome count g = fallbackData g count := by
    rcases h with rfl | ⟨v, rfl, hv⟩ | ⟨items, rfl, hbad⟩
    · rfl
    · cases v <;> first | rfl | (exact absurd hv (by simp [isArr]))
    · obtain ⟨e, he⟩ := validateItems_error_of_bad items 0 hbad
      simp [generateFromFunction, he]
  refine ⟨hfb, ?_, ?_⟩
  · rw [hfb]; exact fallbackData_length g count
  · rw [hfb]; exact fallbackData_finite g count

/-- Witness for C3: a run whose user code returned the non-array string value
"oops" yields the two-point fallback dataset. -/
theorem generateFromFunction_fallback_witness :
    ((some (JSValue.str "oops") = none ∨
      (∃ v, some (JSValue.str "oops") = some v ∧ isArr v = false) ∨
      (∃ items, some (JSValue.str "oops") = some (.arr items) ∧
        ∃ it ∈ items, itemOk it = false)) ∧
     (generateFromFunction (some (JSValue.str "oops")) 2 rngHalf = fallbackData rngHalf 2 ∧
      (generateFromFunction (some (JSValue.str "oops")) 2 rngHalf).1.length = 2 ∧
      ∀ p ∈ (generateFromFunction (some (JSValue.str "oops")) 2 rngHalf).1,
        p.x.isFinite = true ∧ p.y.isFinite = true)) :=
  ⟨Or.inr (Or.inl ⟨JSValue.str "oops", rfl, rfl⟩),
   generateFromFunction_fallback (some (JSValue.str "oops")) 2 rngHalf
     (Or.inr (Or.inl ⟨JSValue.str "oops", rfl, rfl⟩))⟩

theorem permuteData_isYPermutation (d : Dataset) (g : RNG) :
    isYPermutationOf (permuteData d g).1 d :=
  ⟨(permuteData_marginals d g).2.1, (permuteData_marginals d g).2.2⟩

theorem buildSlots_spec (td : Dataset) (tp : ℤ) :
    ∀ (L : List ℕ) (g : RNG),
      ((buildSlots td tp g L).1.map (·.index) = L) ∧
      ((buildSlots td tp g L).1.countP (fun s => s.isTrue) =
        L.countP (fun (i : ℕ) => decide ((i : ℤ) = tp))) ∧
      (∀ s ∈ (buildSlots td tp g L).1,
        s.isTrue = decide ((s.index : ℤ) = tp) ∧
        (s.isTrue = true → s.data = td) ∧
        (s.isTrue = false → isYPermutationOf s.data td)) := by
  intro L
  induction L with
  | nil => intro g; exact ⟨rfl, rfl, by simp [buildSlots]⟩
  | cons i rest ih =>
    intro g
    by_cases hi : (i : ℤ) = tp
    · obtain ⟨h1, h2, h3⟩ := ih g
      simp only [buildSlots, if_pos hi]
      refine ⟨by simp [h1], ?_, ?_⟩
      · simp [List.countP_cons, h2, hi]
      · intro s hs
        rcases List.mem_cons.mp hs with rfl | hs
        · refine ⟨by simp [hi], fun _ => rfl, fun hfalse => by simp at hfalse⟩
        · exact h3 s hs
    · obtain ⟨h1, h2, h3⟩ := ih (permuteData td g).2
      simp only [buildSlots, if_neg hi]
      refine ⟨by simp [h1], ?_, ?_⟩
      · simp [List.countP_cons, h2, hi]
      · intro s hs
        rcases List.mem_cons.mp hs with rfl | hs
        · refine ⟨by simp [hi], fun htrue => by simp at htrue,
            fun _ => permuteData_isYPermutation td g⟩
        · exact h3 s hs

theorem buildSlots_length (td : Dataset) (tp : ℤ) (L : List ℕ) (g : RNG) :
    (buildSlots td tp g L).1.length = L.length := by
  have h := (buildSlots_spec td tp L g).1
  have := congrArg List.length h
  simpa using this

theorem countP_range'_zero :
    ∀ (n s : ℕ) (tp : ℤ), (tp < (s : ℤ) ∨ (s : ℤ) + n ≤ tp) →
      (List.range' s n).countP (fun (i : ℕ) => decide ((i : ℤ) = tp)) = 0 := by
  intro n
  induction n with
  | zero => intro s tp _; rfl
  | succ m ih =>
    intro s tp h
    rw [List.range'_succ, List.countP_cons]
    have hs : decide (((s : ℕ) : ℤ) = tp) = false := decide_eq_false (by omega)
    rw [hs, ih (s + 1) tp (by omega)]
    simp

theorem countP_range'_one :
    ∀ (n s : ℕ) (tp : ℤ), (s : ℤ) ≤ tp → tp < (s : ℤ) + n →
      (List.range' s n).countP (fun (i : ℕ) => decide ((i : ℤ) = tp)) = 1 := by
  intro n
  induction n with
  | zero => intro s tp h1 h2; exfalso; omega
  | succ m ih =>
    intro s tp h1 h2
    rw [List.range'_succ, List.countP_cons]
    by_cases hs : ((s : ℕ) : ℤ) = tp
    · rw [decide_eq_true hs, countP_range'_zero m (s + 1) tp (by omega)]
      simp
    · rw [decide_eq_false hs, ih (s + 1) tp (by omega) (by omega)]
      simp

theorem generateDataset_ok (config : GameConfig) (fc : FuncConfig) (exec : ExecOracle)
    (noise : ℚ) (g : RNG) (hfc : config.funcConfig = some fc) :
    generateDataset config exec noise g =
      .ok (generateFromFunction (exec fc.code config.r noise) config.r g) := by
  unfold generateDataset
  have hm : config.method = Method.function := by cases config.method; rfl
  rw [if_pos hm, hfc]

/-- C1: for a config with a generator and n >= 2, and any truePos in [1, n],
generateLineupData returns exactly n slots whose index fields are exactly
1..n in order (hence no gaps or duplicates), with exactly one slot marked
isTrue, located at index truePos and holding the generated true dataset;
every other slot holds a y-permutation of the true dataset (same x sequence,
same y multiset), each produced by its own permutation draw from the random
stream. -/
theorem generateLineupData_single_true (config : GameConfig) (fc : FuncConfig)
    (exec : ExecOracle) (truePos : ℤ) (noise : ℚ) (g : RNG)
    (hfc : config.funcConfig = some fc) (hn : 2 ≤ config.n)
    (h1 : 1 ≤ truePos) (h2 : truePos ≤ (config.n : ℤ)) :
    ∃ slots gfin,
      generateLineupData config exec truePos noise g = .ok (slots, gfin) ∧
      slots.length = config.n ∧
      slots.map (·.index) = List.range' 1 config.n ∧
      slots.countP (fun s => s.isTrue) = 1 ∧
      (∀ s ∈ slots, s.isTrue = true ↔ (s.index : ℤ) = truePos) ∧
      (∀ s ∈ slots, s.isTrue = true →
        s.data = (generateFromFunction (exec fc.code config.r noise) config.r g).1) ∧
      (∀ s ∈ slots, s.isTrue = false →
        isYPermutationOf s.data
          (generateFromFunction (exec fc.code config.r noise) config.r g).1) := by
  have hrun : generateLineupData config exec truePos noise g =
      .ok (buildSlots (generateFromFunction (exec fc.code config.r noise) config.r g).1
             truePos
             (generateFromFunction (exec fc.code config.r noise) config.r g).2
             (List.range' 1 config.n)) := by
    unfold generateLineupData
    rw [generateDataset_ok config fc exec noise g hfc]
  obtain ⟨hmap, hcount, hall⟩ :=
    buildSlots_spec (generateFromFunction (exec fc.code config.r noise) config.r g).1
      truePos (List.range' 1 config.n)
      (generateFromFunction (exec fc.code config.r noise) config.r g).2
  refine ⟨_, _, hrun, ?_, hmap, ?_, ?_, ?_, ?_⟩
  · rw [buildSlots_length]; simp
  · rw [hcount]; exact countP_range'_one config.n 1 truePos (by omega) (by omega)
  · intro s hs
    have h := (hall s hs).1
    constructor
    · intro ht; rw [ht] at h; exact of_decide_eq_true h.symm
    · intro hp; rw [h]; simp [hp]
  · intro s hs; exact (hall s hs).2.1
  · intro s hs; exact (hall s hs).2.2

/-- Witness for C1: a three-slot lineup with the true pattern at position 2
from a two-point dataset. -/
theorem generateLineupData_single_true_witness :
    ((cfgW.funcConfig = some fcW) ∧ 2 ≤ cfgW.n ∧ 1 ≤ (2 : ℤ) ∧ (2 : ℤ) ≤ (cfgW.n : ℤ) ∧
     ∃ slots gfin,
       generateLineupData cfgW execW 2 (1/2) rngHalf = .ok (slots, gfin) ∧
       slots.length = cfgW.n ∧
       slots.map (·.index) = List.range' 1 cfgW.n ∧
       slots.countP (fun s => s.isTrue) = 1 ∧
       (∀ s ∈ slots, s.isTrue = true ↔ (s.index : ℤ) = 2) ∧
       (∀ s ∈ slots, s.isTrue = true →
         s.data = (generateFromFunction (execW fcW.code cfgW.r (1/2)) cfgW.r rngHalf).1) ∧
       (∀ s ∈ slots, s.isTrue = false →
         isYPermutationOf s.data
           (generateFromFunction (execW fcW.code cfgW.r (1/2)) cfgW.r rngHalf).1)) :=
  ⟨rfl, by decide, by decide, by decide,
   generateLineupData_single_true cfgW fcW execW 2 (1/2) rngHalf rfl
     (by decide) (by decide) (by decide)⟩

/-- C10: when truePos lies outside [1, n] nothing checks it and no error is
raised: generateLineupData still returns n slots with indices 1..n, all of
them y-permutations of the true dataset with isTrue = false, so no slot is
marked as the true pattern. -/
theorem generateLineupData_out_of_range (config : GameConfig) (fc : FuncConfig)
    (exec : ExecOracle) (truePos : ℤ) (noise : ℚ) (g : RNG)
    (hfc : config.funcConfig = some fc)
    (hout : truePos < 1 ∨ (config.n : ℤ) < truePos) :
    ∃ slots gfin,
      generateLineupData config exec truePos noise g = .ok (slots, gfin) ∧
      slots.length = config.n ∧
      slots.map (·.index) = List.range' 1 config.n ∧
      ∀ s ∈ slots, s.isTrue = false ∧
        isYPermutationOf s.data
          (generateFromFunction (exec fc.code config.r noise) config.r g).1 := by
  have hrun : generateLineupData config exec truePos noise g =
      .ok (buildSlots (generateFromFunction (exec fc.code config.r noise) config.r g).1
             truePos
             (generateFromFunction (exec fc.code config.r noise) config.r g).2
             (List.range' 1 config.n)) := by
    unfold generateLineupData
    rw [generateDataset_ok config fc exec noise g hfc]
  obtain ⟨hmap, hcount, hall⟩ :=
    buildSlots_spec (generateFromFunction (exec fc.code config.r noise) config.r g).1
      truePos (List.range' 1 config.n)
      (generateFromFunction (exec fc.code config.r noise) config.r g).2
  refine ⟨_, _, hrun, ?_, hmap, ?_⟩
  · rw [buildSlots_length]; simp
  · intro s hs
    have hidx : s.index ∈ List.range' 1 config.n := by
      rw [← hmap]; exact List.mem_map_of_mem (·.index) hs
    have hrange := List.mem_range'_1.mp hidx
    have hne : ¬ ((s.index : ℤ) = truePos) := by omega
    have hfalse : s.isTrue = false := by
      rw [(hall s hs).1]; simp [hne]
    exact ⟨hfalse, (hall s hs).2.2 hfalse⟩

/-- Witness for C10: truePos = 5 on a two-slot config. -/
theorem generateLineupData_out_of_range_witness :
    ((cfgW2.funcConfig = some fcW) ∧ ((5 : ℤ) < 1 ∨ (cfgW2.n : ℤ) < 5) ∧
     ∃ slots gfin,
       generateLineupData cfgW2 execW 5 (1/2) rngHalf = .ok (slots, gfin) ∧
       slots.length = cfgW2.n ∧
       slots.map (·.index) = List.range' 1 cfgW2.n ∧
       ∀ s ∈ slots, s.isTrue = false ∧
         isYPermutationOf s.data
           (generateFromFunction (execW fcW.code cfgW2.r (1/2)) cfgW2.r rngHalf).1) :=
  ⟨rfl, by decide,
   generateLineupData_out_of_range cfgW2 fcW execW 5 (1/2) rngHalf rfl (by decide)⟩

theorem rorschachNulls_spec (td : Dataset) :
    ∀ (L : List ℕ) (g : RNG),
      ((rorschachNulls td g L).1.map (·.index) = L) ∧
      (∀ s ∈ (rorschachNulls td g L).1, s.isTrue = false) := by
  intro L
  induction L with
  | nil => intro g; exact ⟨rfl, by simp [rorschachNulls]⟩
  | cons i rest ih =>
    intro g
    obtain ⟨h1, h2⟩ := ih (permuteData td g).2
    refine ⟨by simp [rorschachNulls, h1], ?_⟩
    intro s hs
    rcases List.mem_cons.mp hs with rfl | hs
    · rfl
    · exact h2 s hs

theorem rorschachNulls_length (td : Dataset) (L : List ℕ) (g : RNG) :
    (rorschachNulls td g L).1.length = L.length := by
  have h := (rorschachNulls_spec td L g).1
  have := congrArg List.length h
  simpa using this

theorem rorschachNulls_countP (td : Dataset) (L : List ℕ) (g : RNG) :
    (rorschachNulls td g L).1.countP (fun s => s.isTrue) = 0 := by
  rw [List.countP_eq_zero]
  intro s hs
  simp [(rorschachNulls_spec td L g).2 s hs]

theorem reindex_map_index :
    ∀ (l : List PlotData) (k : ℕ),
      (reindex k l).map (·.index) = List.range' (k + 1) l.length := by
  intro l
  induction l with
  | nil => intro k; rfl
  | cons s rest ih =>
    intro k
    rw [List.length_cons, List.range'_succ]
    simp [reindex, ih (k + 1)]

theorem reindex_length (l : List PlotData) (k : ℕ) :
    (reindex k l).length = l.length := by
  have := congrArg List.length (reindex_map_index l k)
  simpa using this

theorem reindex_countP (l : List PlotData) :
    ∀ (k : ℕ),
      (reindex k l).countP (fun s => s.isTrue) = l.countP (fun s => s.isTrue) := by
  induction l with
  | nil => intro k; rfl
  | cons s rest ih =>
    intro k
    simp [reindex, List.countP_cons, ih (k + 1)]

theorem spliceInsert_length {α : Type _} (l : List α) (pos : ℕ) (a : α) :
    (spliceInsert l pos a).length = l.length + 1 := by
  simp [spliceInsert]
  omega

theorem spliceInsert_countP {α : Type _} (l : List α) (pos : ℕ) (a : α) (q : α → Bool) :
    (spliceInsert l pos a).countP q = l.countP q + (if q a then 1 else 0) := by
  have hsplit : l.countP q = (l.take pos).countP q + (l.drop pos).countP q := by
    conv_lhs => rw [← List.take_append_drop pos l]
    rw [List.countP_append]
  simp [spliceInsert, List.countP_append, List.countP_cons, hsplit]
  omega

theorem fallbackData_stream (g : RNG) :
    ∀ count, (fallbackData g count).2.stream = g.stream := by
  intro count
  induction count generalizing g with
  | zero => rfl
  | succ k ih => simp [fallbackData, RNG.next, ih]

theorem generateFromFunction_stream (outcome : Option JSValue) (count : ℕ) (g : RNG) :
    (generateFromFunction outcome count g).2.stream = g.stream := by
  unfold generateFromFunction
  cases outcome with
  | none => exact fallbackData_stream g count
  | some v =>
    cases v <;> try exact fallbackData_stream g count
    rename_i items
    dsimp only
    cases hval : validateItems 0 items with
    | ok ds => rfl
    | error e => exact fallbackData_stream g count

theorem rorschachShow_length (td : Dataset) (nulls : List PlotData × RNG) :
    (rorschachShow td nulls).1.length = nulls.1.length + 1 := by
  unfold rorschachShow
  rw [reindex_length, spliceInsert_length]

theorem rorschachShow_map_index (td : Dataset) (nulls : List PlotData × RNG) :
    (rorschachShow td nulls).1.map (·.index) = List.range' 1 (nulls.1.length + 1) := by
  unfold rorschachShow
  rw [reindex_map_index, spliceInsert_length]

theorem rorschachShow_countP (td : Dataset) (nulls : List PlotData × RNG)
    (h0 : nulls.1.countP (fun s => s.isTrue) = 0) :
    (rorschachShow td nulls).1.countP (fun s => s.isTrue) = 1 := by
  unfold rorschachShow
  rw [reindex_countP, spliceInsert_countP, h0]
  simp

/-- C4: for a config with a generator and n >= 1, generateRorschachData
returns exactly n slots whose index fields form the contiguous sequence 1..n
(after the splice-and-reindex when the true dataset is included), with at
most one slot marked isTrue; with inclusion probability 0 no slot is ever
true, and with probability 1 exactly one slot is always true. -/
theorem generateRorschachData_invariants (config : GameConfig) (fc : FuncConfig)
    (exec : ExecOracle) (p : ℚ) (g : RNG)
    (hfc : config.funcConfig = some fc) (hn : 1 ≤ config.n) (hg : g.InRange) :
    ∃ slots gfin,
      generateRorschachData config exec p g = .ok (slots, gfin) ∧
      slots.length = config.n ∧
      slots.map (·.index) = List.range' 1 config.n ∧
      slots.countP (fun s => s.isTrue) ≤ 1 ∧
      (p = 0 → slots.countP (fun s => s.isTrue) = 0) ∧
      (p = 1 → slots.countP (fun s => s.isTrue) = 1) := by
  set noise := rorschachNoise config with hnoise
  set td := generateFromFunction (exec fc.code config.r noise) config.r g with htd
  have hds := generateDataset_ok config fc exec noise g hfc
  have hr0 : 0 ≤ td.2.next.1 ∧ td.2.next.1 < 1 := by
    have hstream : td.2.stream = g.stream := by
      rw [htd]; exact generateFromFunction_stream _ _ _
    show 0 ≤ td.2.stream td.2.idx ∧ td.2.stream td.2.idx < 1
    rw [hstream]
    exact hg td.2.idx
  by_cases hshow : td.2.next.1 < p
  · -- the true dataset is included
    have hbody : generateRorschachData config exec p g =
        .ok (rorschachShow td.1
              (rorschachNulls td.1 td.2.next.2 (List.range' 1 (config.n - 1)))) := by
      show generateRorschachWith config exec p noise g = _
      unfold generateRorschachWith
      rw [hds]
      dsimp only
      rw [← htd, if_pos hshow]
    set nulls := rorschachNulls td.1 td.2.next.2 (List.range' 1 (config.n - 1)) with hnulls
    have hnzero : nulls.1.countP (fun s => s.isTrue) = 0 := by
      rw [hnulls]; exact rorschachNulls_countP _ _ _
    have hnlen : nulls.1.length = config.n - 1 := by
      rw [hnulls, rorschachNulls_length]; simp
    have hslen : (rorschachShow td.1 nulls).1.length = config.n := by
      rw [rorschachShow_length, hnlen]; omega
    have hsmap : (rorschachShow td.1 nulls).1.map (·.index) = List.range' 1 config.n := by
      rw [rorschachShow_map_index, hnlen]
      congr 1
      omega
    have hscount : (rorschachShow td.1 nulls).1.countP (fun s => s.isTrue) = 1 :=
      rorschachShow_countP td.1 nulls hnzero
    refine ⟨_, _, hbody, hslen, hsmap, le_of_eq hscount, fun hp => ?_, fun _ => hscount⟩
    exfalso
    rw [hp] at hshow
    exact absurd hshow (by linarith [hr0.1])
  · -- all plots are null permutations
    have hbody : generateRorschachData config exec p g =
        .ok (rorschachNulls td.1 td.2.next.2 (List.range' 1 config.n)) := by
      show generateRorschachWith config exec p noise g = _
      unfold generateRorschachWith
      rw [hds]
      dsimp only
      rw [← htd, if_neg hshow]
    have hzero :
        (rorschachNulls td.1 td.2.next.2 (List.range' 1 config.n)).1.countP
          (fun s => s.isTrue) = 0 := rorschachNulls_countP _ _ _
    refine ⟨_, _, hbody, ?_, ?_, by rw [hzero]; omega, fun _ => hzero, fun hp => ?_⟩
    · rw [rorschachNulls_length]; simp
    · exact (rorschachNulls_spec td.1 (List.range' 1 config.n) td.2.next.2).1
    · exfalso
      rw [hp] at hshow
      exact absurd hr0.2 hshow

/-- Witness for C4: a two-plot Rorschach screen with inclusion probability 1. -/
theorem generateRorschachData_invariants_witness :
    ((cfgW2.funcConfig = some fcW) ∧ 1 ≤ cfgW2.n ∧ rngZero.InRange ∧
     ∃ slots gfin,
       generateRorschachData cfgW2 execW 1 rngZero = .ok (slots, gfin) ∧
       slots.length = cfgW2.n ∧
       slots.map (·.index) = List.range' 1 cfgW2.n ∧
       slots.countP (fun s => s.isTrue) ≤ 1 ∧
       ((1 : ℚ) = 0 → slots.countP (fun s => s.isTrue) = 0) ∧
       ((1 : ℚ) = 1 → slots.countP (fun s => s.isTrue) = 1)) :=
  ⟨rfl, by decide, rngZeroInRange,
   generateRorschachData_invariants cfgW2 fcW execW 1 rngZero rfl (by decide)
     rngZeroInRange⟩

/-- The showTrue branch of generateRorschachWith, spelled out for a config
whose generator draw falls below the inclusion probability. -/
theorem generateRorschachWith_show_branch (config : GameConfig) (fc : FuncConfig)
    (exec : ExecOracle) (p noise : ℚ) (g : RNG)
    (hfc : config.funcConfig = some fc)
    (hlt : (generateFromFunction (exec fc.code config.r noise) config.r g).2.next.1 < p) :
    generateRorschachWith config exec p noise g =
      .ok (rorschachShow (generateFromFunction (exec fc.code config.r noise) config.r g).1
            (rorschachNulls (generateFromFunction (exec fc.code config.r noise) config.r g).1
              (generateFromFunction (exec fc.code config.r noise) config.r g).2.next.2
              (List.range' 1 (config.n - 1)))) := by
  unfold generateRorschachWith
  rw [generateDataset_ok config fc exec noise g hfc]
  dsimp only
  rw [if_pos hlt]

/-- Counterexample to C9: with initialNoiseLevel explicitly configured as 0,
generateRorschachData invokes the generator with the default 0.5 instead (the
JavaScript || of line 81 treats 0 as falsy), so the true dataset is the one
produced at noise 0.5, not the one produced at the configured noise 0. -/
theorem rorschach_ignores_zero_initial_noise :
    rorschachNoise cfgC9 = 1 / 2 ∧
    (generateRorschachData cfgC9 execC9 1 rngZero).toOption.map
        (fun res => res.1.map (·.data)) =
      some [[DataPoint.mk (.finite 2) (.finite 2)]] ∧
    (generateRorschachData cfgC9 execC9 1 rngZero).toOption.map
        (fun res => res.1.map (·.data)) ≠
      some [[DataPoint.mk (.finite 1) (.finite 1)]] := by
  have hnoise : rorschachNoise cfgC9 = 1 / 2 := by
    show jsOrDefault (some 0) (1 / 2) = 1 / 2
    norm_num [jsOrDefault]
  have hgff : generateFromFunction (execC9 fcC9.code cfgC9.r (1 / 2)) cfgC9.r rngZero =
      ([DataPoint.mk (.finite 2) (.finite 2)], rngZero) := by
    have hx : execC9 fcC9.code cfgC9.r (1 / 2) =
        some (.arr [.obj [("x", .num (.finite 2)), ("y", .num (.finite 2))]]) := by
      show execC9 "gen" 1 (1 / 2) = _
      unfold execC9
      norm_num
    rw [hx]
    rfl
  have hlt : (generateFromFunction (execC9 fcC9.code cfgC9.r (1 / 2)) cfgC9.r rngZero).2.next.1
      < 1 := by
    rw [hgff]
    show (0 : ℚ) < 1
    norm_num
  have hrw : generateRorschachData cfgC9 execC9 1 rngZero =
      generateRorschachWith cfgC9 execC9 1 (1 / 2) rngZero := by
    show generateRorschachWith cfgC9 execC9 1 (rorschachNoise cfgC9) rngZero = _
    rw [hnoise]
  have hbranch := generateRorschachWith_show_branch cfgC9 fcC9 execC9 1 (1 / 2) rngZero rfl hlt
  rw [hgff] at hbranch
  have hval : generateRorschachData cfgC9 execC9 1 rngZero =
      .ok (rorschachShow [DataPoint.mk (.finite 2) (.finite 2)]
            (rorschachNulls [DataPoint.mk (.finite 2) (.finite 2)] rngZero.next.2
              (List.range' 1 (cfgC9.n - 1)))) := by
    rw [hrw, hbranch]
  have hshowval : (rorschachShow [DataPoint.mk (.finite 2) (.finite 2)]
      (rorschachNulls [DataPoint.mk (.finite 2) (.finite 2)] rngZero.next.2
        (List.range' 1 (cfgC9.n - 1)))).1 =
      [PlotData.mk [DataPoint.mk (.finite 2) (.finite 2)] 1 true] := by
    show (rorschachShow [DataPoint.mk (.finite 2) (.finite 2)]
      ([], rngZero.next.2)).1 = _
    unfold rorschachShow
    simp [RNG.next, rngZero, spliceInsert, reindex]
  refine ⟨hnoise, ?_, ?_⟩
  · rw [hval]
    show some ((rorschachShow _ _).1.map (·.data)) = _
    rw [hshowval]
    rfl
  · rw [hval]
    show some ((rorschachShow _ _).1.map (·.data)) ≠ _
    rw [hshowval]
    simp

/-- C9 amended: generateRorschachData generates its true dataset at the
line-81 noise level, which equals the configured initialNoiseLevel when that
is present and nonzero, and the default 0.5 when it is absent or equals 0. -/
theorem generateRorschachData_noise_choice (config : GameConfig) (fc : FuncConfig)
    (exec : ExecOracle) (p : ℚ) (g : RNG) (hfc : config.funcConfig = some fc) :
    generateRorschachData config exec p g =
      generateRorschachWith config exec p (rorschachNoise config) g ∧
    (∀ v, fc.initialNoiseLevel = some v → v ≠ 0 → rorschachNoise config = v) ∧
    ((fc.initialNoiseLevel = none ∨ fc.initialNoiseLevel = some 0) →
      rorschachNoise config = 1 / 2) := by
  refine ⟨rfl, ?_, ?_⟩
  · intro v hv hnz
    unfold rorschachNoise jsOrDefault
    rw [hfc]
    simp [hv, hnz]
  · intro h
    unfold rorschachNoise jsOrDefault
    rcases h with h | h <;> rw [hfc] <;> simp [h]

/-- Witness for the amended C9: a nonzero configured level 3/4 is used, and
the zero-configured cfgC9 falls back to 1/2. -/
theorem generateRorschachData_noise_choice_witness :
    ((cfgW.funcConfig = some fcW) ∧
     (generateRorschachData cfgW execW 1 rngHalf =
        generateRorschachWith cfgW execW 1 (rorschachNoise cfgW) rngHalf ∧
      (∀ v, fcW.initialNoiseLevel = some v → v ≠ 0 → rorschachNoise cfgW = v) ∧
      ((fcW.initialNoiseLevel = none ∨ fcW.initialNoiseLevel = some 0) →
        rorschachNoise cfgW = 1 / 2))) :=
  ⟨rfl, generateRorschachData_noise_choice cfgW fcW execW 1 rngHalf rfl⟩

/-- Counterexample to C7: assembling a lineup round with plotCount = 1 and
pointsPerPlot = 0 raises no error at all; it returns an ok plot-set with one
slot. -/
theorem invalid_config_not_rejected :
    cfgTiny.n < 2 ∧ cfgTiny.r = 0 ∧
    (generateLineupData cfgTiny execEmpty 1 0 rngZero).isOk = true ∧
    (generateLineupData cfgTiny execEmpty 1 0 rngZero).toOption.map (fun res => res.1) =
      some [PlotData.mk [] 1 true] := by
  decide

/-- C7 amended: round assembly raises an error only when the method/funcConfig
guard fails (the 'Invalid configuration' throw of generateDataset); a
plotCount below 2 or a non-positive pointsPerPlot is not checked, and
generateLineupData returns an ok plot-set of config.n slots for every such
config. -/
theorem lineup_config_error_policy (config : GameConfig) (exec : ExecOracle)
    (truePos : ℤ) (noise : ℚ) (g : RNG) :
    (config.funcConfig = none →
      generateLineupData config exec truePos noise g = .error "Invalid configuration") ∧
    (∀ fc, config.funcConfig = some fc →
      ∃ slots gfin, generateLineupData config exec truePos noise g = .ok (slots, gfin) ∧
        slots.length = config.n) := by
  have hm : config.method = Method.function := by cases config.method; rfl
  constructor
  · intro hnone
    unfold generateLineupData generateDataset
    rw [if_pos hm, hnone]
  · intro fc hfc
    have hrun : generateLineupData config exec truePos noise g =
        .ok (buildSlots (generateFromFunction (exec fc.code config.r noise) config.r g).1
              truePos
              (generateFromFunction (exec fc.code config.r noise) config.r g).2
              (List.range' 1 config.n)) := by
      unfold generateLineupData
      rw [generateDataset_ok config fc exec noise g hfc]
    exact ⟨_, _, hrun, by rw [buildSlots_length]; simp⟩

/-- Witness for the amended C7: the missing-funcConfig error and the
unchecked tiny config, both at concrete inputs. -/
theorem lineup_config_error_policy_witness :
    (generateLineupData cfgNoFunc execEmpty 1 0 rngZero = .error "Invalid configuration") ∧
    (∃ slots gfin, generateLineupData cfgTiny execEmpty 1 0 rngZero = .ok (slots, gfin) ∧
      slots.length = cfgTiny.n) :=
  ⟨(lineup_config_error_policy cfgNoFunc execEmpty 1 0 rngZero).1 rfl,
   (lineup_config_error_policy cfgTiny execEmpty 1 0 rngZero).2 fcW rfl⟩

/-- Counterexample to C8: an item with a non-finite (NaN) x field passes the
typeof-number validation of line 223, is not flagged with any error, and is
returned to the caller instead of triggering the fallback (whose points are
all finite). -/
theorem nonfinite_item_accepted :
    itemOk nanItem = true ∧
    validateItems 0 [nanItem] = .ok [DataPoint.mk .nan (.finite 0)] ∧
    (generateFromFunction (some (.arr [nanItem])) 1 rngZero).1 =
      [DataPoint.mk .nan (.finite 0)] ∧
    (generateFromFunction (some (.arr [nanItem])) 1 rngZero).1 ≠
      (fallbackData rngZero 1).1 := by
  refine ⟨by decide, rfl, by decide, ?_⟩
  intro h
  have hfin := fallbackData_finite rngZero 1
  rw [← h] at hfin
  have hmem := hfin (DataPoint.mk .nan (.finite 0)) (by decide)
  simpa [JSNum.isFinite] using hmem.1

theorem checkItem_error_of_bad (v : JSValue) (i : ℕ) (h : itemOk v = false) :
    checkItem v i = .error (checkErrMsg v i) := by
  unfold checkItem
  cases hobj : isObjectLike v with
  | false => simp
  | true =>
    cases hx : propNum v "x" with
    | none => simp [hx]
    | some nx =>
      cases hy : propNum v "y" with
      | none => simp [hx, hy]
      | some ny =>
        exfalso
        unfold itemOk at h
        rw [hobj, hx, hy] at h
        simp at h

theorem checkItem_ok_of_good (v : JSValue) (i : ℕ) (h : itemOk v = true) :
    ∃ pt, checkItem v i = .ok pt := by
  have hok := checkItem_isOk v i
  rw [h] at hok
  cases hv : checkItem v i with
  | error e =>
    rw [hv] at hok
    exact absurd hok (by simp [Except.isOk, Except.toBool])
  | ok pt => exact ⟨pt, rfl⟩

theorem validateItems_first_bad :
    ∀ (pre : List JSValue) (bad : JSValue) (rest : List JSValue) (k : ℕ),
      (∀ it ∈ pre, itemOk it = true) → itemOk bad = false →
      validateItems k (pre ++ bad :: rest) = .error (checkErrMsg bad (k + pre.length)) := by
  intro pre
  induction pre with
  | nil =>
    intro bad rest k hpre hbad
    simp only [List.nil_append, validateItems]
    rw [checkItem_error_of_bad bad k hbad]
    rfl
  | cons v vs ih =>
    intro bad rest k hpre hbad
    simp only [List.cons_append, validateItems, List.append_eq]
    obtain ⟨pt, hpt⟩ := checkItem_ok_of_good v k (hpre v (List.mem_cons_self v vs))
    have harith : k + 1 + vs.length = k + (vs.length + 1) := by omega
    rw [hpt, ih bad rest (k + 1) (fun it hit => hpre it (List.mem_cons_of_mem v hit)) hbad,
        harith]
    rfl

/-- C8 amended: each result item must have x and y of JavaScript type number;
finiteness is not checked, so NaN and infinite numeric fields pass validation
and are returned to the caller.  The first item with a missing or non-number
x or y fails validation with an error message naming its index, and the whole
runner call returns the count-point fallback dataset instead. -/
theorem runner_item_validation (count : ℕ) (g : RNG) :
    (∀ pre bad rest, (∀ it ∈ pre, itemOk it = true) → itemOk bad = false →
      validateItems 0 (pre ++ bad :: rest) = .error (checkErrMsg bad pre.length) ∧
      generateFromFunction (some (.arr (pre ++ bad :: rest))) count g =
        fallbackData g count) ∧
    itemOk (JSValue.obj [("x", .num .nan), ("y", .num .posInf)]) = true := by
  constructor
  · intro pre bad rest hpre hbad
    have hv := validateItems_first_bad pre bad rest 0 hpre hbad
    have hz : 0 + pre.length = pre.length := by omega
    rw [hz] at hv
    refine ⟨hv, ?_⟩
    unfold generateFromFunction
    dsimp only
    rw [hv]
  · decide

/-- Witness for the amended C8: a single null item at index 0 fails
validation and produces the two-point fallback, while a NaN/Infinity item
passes validation. -/
theorem runner_item_validation_witness :
    ((∀ it ∈ ([] : List JSValue), itemOk it = true) ∧
     itemOk JSValue.nullV = false ∧
     validateItems 0 ([] ++ JSValue.nullV :: []) =
       .error (checkErrMsg JSValue.nullV (List.length ([] : List JSValue))) ∧
     generateFromFunction (some (.arr ([] ++ JSValue.nullV :: []))) 2 rngZero =
       fallbackData rngZero 2 ∧
     itemOk (JSValue.obj [("x", .num .nan), ("y", .num .posInf)]) = true) :=
  ⟨fun it hit => absurd hit (List.not_mem_nil it),
   rfl,
   ((runner_item_validation 2 rngZero).1 []
      JSValue.nullV [] (fun it hit => absurd hit (List.not_mem_nil it)) rfl).1,
   ((runner_item_validation 2 rngZero).1 []
      JSValue.nullV [] (fun it hit => absurd hit (List.not_mem_nil it)) rfl).2,
   (runner_item_validation 2 rngZero).2⟩

/-- C6: updateNoiseLevel returns currentLevel + 0.1 when the config supplies
no progression procedure text (no funcConfig, no noiseStepCode, or the falsy
empty string), and currentLevel * 1.1 whenever a supplied nonempty procedure
throws during compilation or execution; the multiplicative failure fallback
is distinct from the additive no-procedure default. -/
theorem updateNoiseLevel_policy (config : GameConfig) (prog : ProgOracle)
    (currentLevel : ℚ) :
    ((config.funcConfig = none ∨
      (∃ fc, config.funcConfig = some fc ∧
        (fc.noiseStepCode = none ∨ fc.noiseStepCode = some ""))) →
      updateNoiseLevel config prog currentLevel = currentLevel + 1 / 10) ∧
    (∀ fc code, config.funcConfig = some fc → fc.noiseStepCode = some code →
      code ≠ "" → prog code currentLevel = none →
      updateNoiseLevel config prog currentLevel = currentLevel * (11 / 10)) := by
  have hm : config.method = Method.function := by cases config.method; rfl
  constructor
  · intro h
    unfold updateNoiseLevel
    rw [if_pos hm]
    rcases h with h | ⟨fc, hfc, hcode⟩
    · rw [h]
    · rw [hfc]
      dsimp only
      rcases hcode with h2 | h2 <;> rw [h2] <;> simp
  · intro fc code hfc hcode hne hthrow
    unfold updateNoiseLevel
    rw [if_pos hm, hfc]
    dsimp only
    rw [hcode]
    dsimp only
    rw [if_neg hne, hthrow]

/-- Witness for C6: the additive default on a config without noiseStepCode
and the multiplicative fallback on a config whose procedure throws. -/
theorem updateNoiseLevel_policy_witness :
    updateNoiseLevel cfgW progThrow (1 / 2) = 1 / 2 + 1 / 10 ∧
    updateNoiseLevel cfgBroken progThrow (1 / 2) = 1 / 2 * (11 / 10) :=
  ⟨(updateNoiseLevel_policy cfgW progThrow (1 / 2)).1 (Or.inr ⟨fcW, rfl, Or.inl rfl⟩),
   (updateNoiseLevel_policy cfgBroken progThrow (1 / 2)).2 fcBroken "steps" rfl rfl
     (by decide) rfl⟩

theorem playRounds_run (prog : ProgOracle) (c : GameConfig) :
    ∀ (k : ℕ) (gs : GameState) (g : RNG) (p : ℤ),
      gs.config = some c → gs.currentTruePos = some p →
      ∃ gsf gf, playRounds prog gs g k = some (gsf, gf) ∧
        gsf.stage = Stage.results ∧
        gsf.score = gs.score + k ∧
        gsf.currentNoiseLevel =
          (fun L => updateNoiseLevel c prog L)^[k] gs.currentNoiseLevel := by
  intro k
  induction k with
  | zero =>
    intro gs g p hc hp
    have hne : ¬ (gs.currentTruePos = some (gs.currentTruePos.getD 0 + 1)) := by
      rw [hp]
      simp only [Option.getD_some, Option.some.injEq]
      omega
    have hstep : handleSelection prog gs g (gs.currentTruePos.getD 0 + 1) =
        some ({ gs with stage := Stage.results,
                        roundsPlayed := gs.roundsPlayed + 1 }, g) := by
      unfold handleSelection
      rw [if_neg hne]
    exact ⟨_, _, hstep, rfl, rfl, rfl⟩
  | succ k ih =>
    intro gs g p hc hp
    have hcor : gs.currentTruePos = some (gs.currentTruePos.getD 0) := by
      rw [hp]
      rfl
    have hstep : handleSelection prog gs g (gs.currentTruePos.getD 0) =
        some ({ gs with
                  score := gs.score + 1,
                  roundsPlayed := gs.roundsPlayed + 1,
                  currentNoiseLevel := updateNoiseLevel c prog gs.currentNoiseLevel,
                  currentTruePos := some (Int.floor (g.next.1 * (c.n : ℚ)) + 1) },
              g.next.2) := by
      unfold handleSelection
      rw [if_pos hcor, hc]
    obtain ⟨gsf, gf, hrun, hstage, hscore, hnoise⟩ :=
      ih ({ gs with
              score := gs.score + 1,
              roundsPlayed := gs.roundsPlayed + 1,
              currentNoiseLevel := updateNoiseLevel c prog gs.currentNoiseLevel,
              currentTruePos := some (Int.floor (g.next.1 * (c.n : ℚ)) + 1) })
        g.next.2 (Int.floor (g.next.1 * (c.n : ℚ)) + 1) hc rfl
    refine ⟨gsf, gf, ?_, hstage, ?_, ?_⟩
    · show (match handleSelection prog gs g (gs.currentTruePos.getD 0) with
            | none => none
            | some st => playRounds prog st.1 st.2 k) = some (gsf, gf)
      rw [hstep]
      exact hrun
    · rw [hscore]
      show gs.score + 1 + k = gs.score + (k + 1)
      omega
    · rw [hnoise]
      show (fun L => updateNoiseLevel c prog L)^[k]
          (updateNoiseLevel c prog gs.currentNoiseLevel) = _
      simp [Function.iterate_succ_apply]

/-- C5: in the round state machine, a correct selection increments the score,
applies the progression function to the noise level, draws a new true
position in [1, n] and stays in the Lineup stage; an incorrect selection
transitions to Results with score, noise level and the random stream
untouched (so no further plot-set can be generated from the round handler);
consequently k correct answers followed by one incorrect answer end in
Results with score k and noise level equal to the k-fold application of the
progression function to the initial level. -/
theorem handleSelection_round_machine (prog : ProgOracle) (c : GameConfig)
    (gs : GameState) (g : RNG) (p : ℤ)
    (hc : gs.config = some c) (hp : gs.currentTruePos = some p)
    (hstage : gs.stage = Stage.lineup) (hn : 1 ≤ c.n) (hg : g.InRange) :
    (∃ gs1, handleSelection prog gs g p = some (gs1, g.next.2) ∧
       gs1.stage = Stage.lineup ∧
       gs1.score = gs.score + 1 ∧
       gs1.roundsPlayed = gs.roundsPlayed + 1 ∧
       gs1.currentNoiseLevel = updateNoiseLevel c prog gs.currentNoiseLevel ∧
       gs1.config = some c ∧
       (∃ q, gs1.currentTruePos = some q ∧ 1 ≤ q ∧ q ≤ (c.n : ℤ))) ∧
    (∀ sel, sel ≠ p →
       handleSelection prog gs g sel =
         some ({ gs with stage := Stage.results,
                         roundsPlayed := gs.roundsPlayed + 1 }, g)) ∧
    (gs.score = 0 →
      ∀ k, ∃ gsf gf, playRounds prog gs g k = some (gsf, gf) ∧
        gsf.stage = Stage.results ∧
        gsf.score = k ∧
        gsf.currentNoiseLevel =
          (fun L => updateNoiseLevel c prog L)^[k] gs.currentNoiseLevel) := by
  refine ⟨?_, ?_, ?_⟩
  · -- correct selection
    have hcor : gs.currentTruePos = some p := hp
    have hstep : handleSelection prog gs g p =
        some ({ gs with
                  score := gs.score + 1,
                  roundsPlayed := gs.roundsPlayed + 1,
                  currentNoiseLevel := updateNoiseLevel c prog gs.currentNoiseLevel,
                  currentTruePos := some (Int.floor (g.next.1 * (c.n : ℚ)) + 1) },
              g.next.2) := by
      unfold handleSelection
      rw [if_pos hcor, hc]
    refine ⟨_, hstep, hstage, rfl, rfl, rfl, hc, ?_⟩
    refine ⟨Int.floor (g.next.1 * (c.n : ℚ)) + 1, rfl, ?_, ?_⟩
    · have h0 : (0 : ℚ) ≤ g.next.1 := (hg g.idx).1
      have : (0 : ℤ) ≤ Int.floor (g.next.1 * (c.n : ℚ)) := by
        apply Int.floor_nonneg.mpr
        positivity
      omega
    · have h1 : g.next.1 < 1 := (hg g.idx).2
      have h0 : (0 : ℚ) ≤ g.next.1 := (hg g.idx).1
      have hnq : (0 : ℚ) < (c.n : ℚ) := by
        have : (1 : ℕ) ≤ c.n := hn
        exact_mod_cast Nat.lt_of_lt_of_le Nat.zero_lt_one this
      have hlt : g.next.1 * (c.n : ℚ) < (c.n : ℚ) := by
        calc g.next.1 * (c.n : ℚ) < 1 * (c.n : ℚ) :=
              mul_lt_mul_of_pos_right h1 hnq
          _ = (c.n : ℚ) := one_mul _
      have : Int.floor (g.next.1 * (c.n : ℚ)) < (c.n : ℤ) := by
        apply Int.floor_lt.mpr
        push_cast
        exact hlt
      omega
  · -- incorrect selection
    intro sel hsel
    have hne : ¬ (gs.currentTruePos = some sel) := by
      rw [hp]
      simp only [Option.some.injEq]
      intro h
      exact hsel h.symm
    unfold handleSelection
    rw [if_neg hne]
  · -- the k-round simulation
    intro hscore0 k
    obtain ⟨gsf, gf, hrun, hstage2, hscore, hnoise⟩ :=
      playRounds_run prog c k gs g p hc hp
    exact ⟨gsf, gf, hrun, hstage2, by rw [hscore, hscore0]; omega, hnoise⟩

/-- Witness for C5 at a concrete state, config and stream. -/
theorem handleSelection_round_machine_witness :
    ((gsW.config = some cfgW2 ∧ gsW.currentTruePos = some 1 ∧
      gsW.stage = Stage.lineup ∧ 1 ≤ cfgW2.n ∧ rngZero.InRange) ∧
     ((∃ gs1, handleSelection progThrow gsW rngZero 1 = some (gs1, rngZero.next.2) ∧
        gs1.stage = Stage.lineup ∧
        gs1.score = gsW.score + 1 ∧
        gs1.roundsPlayed = gsW.roundsPlayed + 1 ∧
        gs1.currentNoiseLevel = updateNoiseLevel cfgW2 progThrow gsW.currentNoiseLevel ∧
        gs1.config = some cfgW2 ∧
        (∃ q, gs1.currentTruePos = some q ∧ 1 ≤ q ∧ q ≤ (cfgW2.n : ℤ))) ∧
      (∀ sel, sel ≠ 1 →
        handleSelection progThrow gsW rngZero sel =
          some ({ gsW with stage := Stage.results,
                           roundsPlayed := gsW.roundsPlayed + 1 }, rngZero)) ∧
      (gsW.score = 0 →
        ∀ k, ∃ gsf gf, playRounds progThrow gsW rngZero k = some (gsf, gf) ∧
          gsf.stage = Stage.results ∧
          gsf.score = k ∧
          gsf.currentNoiseLevel =
            (fun L => updateNoiseLevel cfgW2 progThrow L)^[k] gsW.currentNoiseLevel))) :=
  ⟨⟨rfl, rfl, rfl, by decide, rngZeroInRange⟩,
   handleSelection_round_machine progThrow cfgW2 gsW rngZero 1 rfl rfl rfl
     (by decide) rngZeroInRange⟩

end Apophenia

